import Mathlib

/-!
# Verification of the tmux-pomodoro event-sourced session state machine

Shallow embedding of `crates/pomodoro/src` (cmd.rs, cli.rs, model.rs,
query.rs, main.rs). Timestamps and durations are modelled as `Int` seconds.
Identifiers are modelled as `Nat` drawn from a monotone counter, reflecting
the UUID v7 time-ordered identifier scheme required by the specification
(§3 invariant 6).

The SQL files `schema.sql` and `query.sql` are referenced by the crate via
`include_str!` but are not part of the provided sources; the storage queries
are therefore modelled from the specification (§6: both record sets are
queried "by time-ordered identifier descending"): the store keeps each table
newest-first, an insert prepends a freshly identified record, and the list
queries read that order directly.
-/

namespace Pomodoro

/-- `SessionKind` from model.rs: a focus or break session. -/
inductive SessionKind
  | Focus
  | Break
deriving DecidableEq, Repr

/-- `Display for SessionKind` (model.rs): the string stored and rendered. -/
def SessionKind.toString : SessionKind → String
  | .Focus => "focus"
  | .Break => "break"

/-- `SessionEventKind` from model.rs: one lifecycle transition kind. -/
inductive SessionEventKind
  | Started
  | Resumed
  | Paused
  | Aborted
  | Completed
deriving DecidableEq, Repr

/-- `SessionState` from cmd.rs: the derived lifecycle state of a session. -/
inductive SessionState
  | None
  | Running
  | Paused
  | Completed
  | Aborted
deriving DecidableEq, Repr

/-- `From<&SessionEventKind> for SessionState` (cmd.rs lines 203-212). -/
def SessionState.fromKind : SessionEventKind → SessionState
  | .Started | .Resumed => .Running
  | .Paused => .Paused
  | .Completed => .Completed
  | .Aborted => .Aborted

/-- `Session` from model.rs. `id` models the UUID v7 identifier as a `Nat`
from a monotone counter; `created_at` is the insertion time in seconds. -/
structure Session where
  id : Nat
  kind : SessionKind
  planned_duration : Int
  created_at : Int
deriving DecidableEq, Repr

/-- `SessionEvent` from model.rs. -/
structure SessionEvent where
  id : Nat
  kind : SessionEventKind
  session_id : Nat
  created_at : Int
deriving DecidableEq, Repr

/-- The persisted state: both append-only record sets, kept newest-first
(identifier descending), plus the monotone identifier counter.

Modelled from the spec: `schema.sql` / `query.sql` are not under `src/`;
§6 fixes the two record sets and the identifier-descending query order, and
§3 invariant 6 fixes the monotone time-ordered identifier scheme. -/
structure Store where
  sessions : List Session
  session_events : List SessionEvent
  next_id : Nat
deriving DecidableEq, Repr

/-- The store of a freshly migrated database: both tables empty. -/
def emptyStore : Store := ⟨[], [], 0⟩

/-- `Querier::insert_session` (query.rs lines 126-149): persist a new session
record and return it. Modelled from the spec: the identifier is drawn from
the monotone counter and the record is prepended (newest-first order). -/
def Store.insertSession (s : Store) (kind : SessionKind) (planned : Int)
    (now : Int) : Store × Session :=
  let sess : Session := ⟨s.next_id, kind, planned, now⟩
  (⟨sess :: s.sessions, s.session_events, s.next_id + 1⟩, sess)

/-- `Querier::insert_session_event` (query.rs lines 205-228): persist a new
session event record and return it. Modelled from the spec as for
`Store.insertSession`. -/
def Store.insertSessionEvent (s : Store) (kind : SessionEventKind)
    (sid : Nat) (now : Int) : Store × SessionEvent :=
  let ev : SessionEvent := ⟨s.next_id, kind, sid, now⟩
  (⟨s.sessions, ev :: s.session_events, s.next_id + 1⟩, ev)

/-- `Querier::list_session_events` with `ListSessionEventsArgs::first()`
(query.rs lines 255-283, 315-321): the single most recent session event
across all sessions. Modelled from the spec: `ORDER BY session_event_id
DESC LIMIT 1` over the newest-first table is its head. -/
def listSessionEventsFirst (s : Store) : Option SessionEvent :=
  s.session_events.head?

/-- `Querier::list_session_events` with
`ListSessionEventsArgs::with_session_id` (query.rs lines 328-334): the
complete event history of one session, newest-first. Modelled from the
spec: `WHERE session_id = :sid ORDER BY session_event_id DESC`. -/
def listSessionEventsWithSessionId (s : Store) (sid : Nat) :
    List SessionEvent :=
  s.session_events.filter (fun e => e.session_id == sid)

/-- `Querier::list_sessions` with `ListSessionsArgs::first()` (query.rs
lines 175-202, 342-347): the single most recent session. Modelled from the
spec: `ORDER BY session_id DESC LIMIT 1` over the newest-first table. -/
def listSessionsFirst (s : Store) : Option Session :=
  s.sessions.head?

/-- `Querier::get_session_by_id` (query.rs lines 152-172): point lookup of a
session, `none` when no row matches. -/
def getSessionById (s : Store) (sid : Nat) : Option Session :=
  s.sessions.find? (fun sess => sess.id == sid)

/-- The kind of the most recent event across all sessions, the input row of
the §4.1 transition table (`none` when no event exists). -/
def latestKind (s : Store) : Option SessionEventKind :=
  (listSessionEventsFirst s).map (fun e => e.kind)

/-- Every event references an existing session (decidable well-formedness;
`get_session_by_id` succeeds on the latest event's session). -/
def eventsHaveSessions (s : Store) : Bool :=
  s.session_events.all
    (fun e => s.sessions.any (fun sess => sess.id == e.session_id))

/-- `StartMode` from cli.rs. -/
inductive StartMode
  | Focus
  | Break
deriving DecidableEq, Repr

/-- `From<StartMode> for SessionKind` (cmd.rs lines 28-35). -/
def StartMode.toKind : StartMode → SessionKind
  | .Focus => SessionKind.Focus
  | .Break => SessionKind.Break

/-- `ProgramConfig` from cli.rs: per-mode default durations in seconds. -/
structure ProgramConfig where
  focus_duration : Int
  break_duration : Int
deriving DecidableEq, Repr

/-- `Default for ProgramConfig` (cli.rs lines 40-47): built-in defaults of
25 minutes focus and 5 minutes break. -/
def ProgramConfig.default : ProgramConfig := ⟨25 * 60, 5 * 60⟩

/-- `StartCommandArgs` from cli.rs: the requested mode and the optional
explicit duration in seconds. -/
structure StartCommandArgs where
  mode : StartMode
  duration : Option Int
deriving DecidableEq, Repr

/-- `StartCommandArgs::with_config` (cli.rs lines 138-146): fill in
`duration` from the config default for the mode when it was not given. -/
def StartCommandArgs.with_config (args : StartCommandArgs)
    (config : ProgramConfig) : StartCommandArgs :=
  if args.duration.isNone then
    { args with
      duration := some (match args.mode with
        | .Focus => config.focus_duration
        | .Break => config.break_duration) }
  else args

/-- `From<&StartCommandArgs> for Session` (cmd.rs lines 12-25): the kind and
planned duration of the session to create; a missing duration falls back to
`ProgramConfig.default` for the mode. -/
def sessionFromArgs (args : StartCommandArgs) : SessionKind × Int :=
  let config := ProgramConfig.default
  let duration := args.duration.getD (match args.mode with
    | .Focus => config.focus_duration
    | .Break => config.break_duration)
  (args.mode.toKind, duration)

/-- Errors a command can propagate: an injected storage-write failure
(carrying the index of the failing write within the command) or a lookup of
a referenced session that does not exist (query.rs / cmd.rs `get_session`). -/
inductive CmdError
  | storage (k : Nat)
  | sessionNotFound (sid : Nat)
deriving DecidableEq, Repr

/-- A storage failure schedule: `fs k = true` makes the k-th write of the
command fail, modelling a storage-level insert error (§5, §7). -/
abbrev FailSpec := Nat → Bool

/-- `StartCommand::execute` (cmd.rs lines 47-94) as a store transformer:
reads the single most recent event, decides the §4.1 `Start()` effect, and
performs the writes inside the enclosing transaction. Writes are numbered
and may fail per `fs`; hook dispatch has no effect on the store and is
omitted. -/
def execStart (fs : FailSpec) (args : StartCommandArgs) (now : Int)
    (s : Store) : Except CmdError Store :=
  match listSessionEventsFirst s with
  | none =>
    let (kind, planned) := sessionFromArgs args
    if fs 0 then .error (.storage 0) else
    let (s1, sess) := s.insertSession kind planned now
    if fs 1 then .error (.storage 1) else
    .ok (s1.insertSessionEvent .Started sess.id now).1
  | some ev =>
    match ev.kind with
    | .Started | .Resumed =>
      match getSessionById s ev.session_id with
      | none => .error (.sessionNotFound ev.session_id)
      | some _ => .ok s
    | .Aborted | .Completed =>
      let (kind, planned) := sessionFromArgs args
      if fs 0 then .error (.storage 0) else
      let (s1, sess) := s.insertSession kind planned now
      if fs 1 then .error (.storage 1) else
      .ok (s1.insertSessionEvent .Started sess.id now).1
    | .Paused =>
      match getSessionById s ev.session_id with
      | none => .error (.sessionNotFound ev.session_id)
      | some sess =>
        if fs 0 then .error (.storage 0) else
        .ok (s.insertSessionEvent .Resumed sess.id now).1

/-- `StopCommand::execute` (cmd.rs lines 122-176) as a store transformer:
reads the single most recent event and decides the §4.1 `Stop(reset)`
effect. -/
def execStop (fs : FailSpec) (reset : Bool) (now : Int) (s : Store) :
    Except CmdError Store :=
  match listSessionEventsFirst s with
  | some ev =>
    match ev.kind with
    | .Started | .Resumed =>
      match getSessionById s ev.session_id with
      | none => .error (.sessionNotFound ev.session_id)
      | some sess =>
        if fs 0 then .error (.storage 0) else
        if reset then .ok (s.insertSessionEvent .Aborted sess.id now).1
        else .ok (s.insertSessionEvent .Paused sess.id now).1
    | .Paused =>
      match getSessionById s ev.session_id with
      | none => .error (.sessionNotFound ev.session_id)
      | some sess =>
        if reset then
          if fs 0 then .error (.storage 0) else
          .ok (s.insertSessionEvent .Aborted sess.id now).1
        else .ok s
    | .Aborted | .Completed =>
      match getSessionById s ev.session_id with
      | none => .error (.sessionNotFound ev.session_id)
      | some _ => .ok s
  | none => .ok s

/-- The replay loop of `StatusCommand::execute` (cmd.rs lines 271-282):
walk the chronological event list keeping the open segment start
(`session_started_at`) and the elapsed accumulator; an opener overwrites
the segment start, a closer adds the segment length and clears it. -/
def replayLoopAcc : Option Int → Int → List SessionEvent → Int × Option Int
  | started_at, elapsed, [] => (elapsed, started_at)
  | started_at, elapsed, e :: es =>
    match e.kind with
    | .Started | .Resumed => replayLoopAcc (some e.created_at) elapsed es
    | _ =>
      match started_at with
      | some t => replayLoopAcc none (elapsed + (e.created_at - t)) es
      | none => replayLoopAcc none elapsed es

/-- Replay of one session's chronological event list (cmd.rs lines 271-286):
sum the closed running segments, then add the still-open segment up to
`now` when the last opener was never closed. -/
def replayElapsed (events : List SessionEvent) (now : Int) : Int :=
  let p := replayLoopAcc none 0 events
  match p.2 with
  | some t => p.1 + (now - t)
  | none => p.1

/-- `SessionStatus` from cmd.rs lines 216-228: the computed status record
rendered by the `status` command. -/
structure SessionStatus where
  kind : String
  state : SessionState
  planned_secs : Int
  elapsed_secs : Int
  remaining_secs : Int
deriving DecidableEq, Repr

/-- `Default for SessionStatus` (cmd.rs lines 230-240): the fixed empty
result returned when no session exists. -/
def SessionStatus.default : SessionStatus := ⟨"none", .None, 0, 0, 0⟩

/-- The state the `status` command derives from the most recent event of
the listed session (cmd.rs lines 292-295). -/
def derivedState (s : Store) (sess : Session) : SessionState :=
  match (listSessionEventsWithSessionId s sess.id).head? with
  | some e => SessionState.fromKind e.kind
  | none => SessionState.None

/-- The clamped elapsed seconds the `status` command computes for the
listed session (cmd.rs lines 274-286, 299). -/
def derivedElapsed (s : Store) (sess : Session) (now : Int) : Int :=
  max (replayElapsed (listSessionEventsWithSessionId s sess.id).reverse now) 0

/-- The clamped remaining seconds the `status` command computes for the
listed session (cmd.rs line 300). -/
def derivedRemaining (s : Store) (sess : Session) (now : Int) : Int :=
  max (sess.planned_duration - derivedElapsed s sess now) 0

/-- `StatusCommand::execute` (cmd.rs lines 262-340) as a store transformer
returning the rendered status: fetch the most recent session and its
events, replay, derive the state, and auto-complete (one write, which may
fail per `fs`) when the session is still running with no time remaining. -/
def execStatus (fs : FailSpec) (now : Int) (s : Store) :
    Except CmdError (Store × SessionStatus) :=
  match listSessionsFirst s with
  | none => .ok (s, SessionStatus.default)
  | some sess =>
    let state := derivedState s sess
    let planned := sess.planned_duration
    let elapsed := derivedElapsed s sess now
    let remaining := derivedRemaining s sess now
    let status : SessionStatus :=
      ⟨sess.kind.toString, state, planned, elapsed, remaining⟩
    if state = SessionState.Running ∧ remaining = 0 then
      if fs 0 then .error (.storage 0) else
      .ok ((s.insertSessionEvent .Completed sess.id now).1,
        { status with state := SessionState.fromKind .Completed })
    else .ok (s, status)

/-- The commit-or-rollback wrapper of main.rs lines 35-56: the command runs
inside one transaction; on success the transaction commits, on any error
the early return drops the transaction and every in-transaction mutation
rolls back.

Modelled from the spec (§5): the rollback behavior itself belongs to the
storage engine, which is outside the provided sources. -/
def commitOrRollback (s : Store) (r : Except CmdError Store) : Store :=
  match r with
  | .ok s1 => s1
  | .error _ => s

/-- One `pomodoro start` invocation without storage failures (main.rs
dispatch of `ProgramCommand::Start`). -/
def runStart (args : StartCommandArgs) (now : Int) (s : Store) : Store :=
  commitOrRollback s (execStart (fun _ => false) args now s)

/-- One `pomodoro stop` invocation without storage failures (main.rs
dispatch of `ProgramCommand::Stop`). -/
def runStop (reset : Bool) (now : Int) (s : Store) : Store :=
  commitOrRollback s (execStop (fun _ => false) reset now s)

/-- One `pomodoro status` invocation without storage failures: the new
store and the status it renders (main.rs dispatch of
`ProgramCommand::Status`). -/
def statusStep (now : Int) (s : Store) : Store × SessionStatus :=
  match execStatus (fun _ => false) now s with
  | .ok p => p
  | .error _ => (s, SessionStatus.default)

/-- The store after one `pomodoro status` invocation. -/
def runStatus (now : Int) (s : Store) : Store :=
  (statusStep now s).1

/-- `main` for `ProgramCommand::Start` (main.rs lines 13, 38-43): load the
configuration (falling back to the built-in defaults when loading fails,
`loaded = none`), fill the missing duration from it, and run the start
command. -/
def mainStart (loaded : Option ProgramConfig) (args : StartCommandArgs)
    (now : Int) (s : Store) : Store :=
  runStart (args.with_config (loaded.getD ProgramConfig.default)) now s

/-- One CLI invocation: the subcommand together with the wall-clock time
at which it runs. -/
inductive Cmd
  | start (args : StartCommandArgs) (now : Int)
  | stop (reset : Bool) (now : Int)
  | status (now : Int)
deriving DecidableEq, Repr

/-- Apply one invocation to a store. -/
def applyCmd (s : Store) : Cmd → Store
  | .start args now => runStart args now s
  | .stop reset now => runStop reset now s
  | .status now => runStatus now s

/-- The wall-clock time of an invocation. -/
def Cmd.now : Cmd → Int
  | .start _ now => now
  | .stop _ now => now
  | .status now => now

/-- The store reached by a finite sequence of invocations from an initially
empty store. -/
def runCmds (cs : List Cmd) : Store :=
  cs.foldl applyCmd emptyStore

/-- `Aborted` and `Completed` are the terminal event kinds (§3). -/
def isTerminal : SessionEventKind → Bool
  | .Aborted | .Completed => true
  | _ => false

/-- The stored (newest-first) event list of one session. -/
def sessionEvs (s : Store) (sid : Nat) : List SessionEvent :=
  s.session_events.filter (fun e => e.session_id == sid)

/-- Spec-side definition (§4.1 transition table, `Start()` column): the
kinds of the events the command should append, paired with the number of
sessions it should create, as a function of the latest event's kind. -/
def specStartTable : Option SessionEventKind → List SessionEventKind × Nat
  | none => ([.Started], 1)
  | some .Started => ([], 0)
  | some .Resumed => ([], 0)
  | some .Paused => ([.Resumed], 0)
  | some .Aborted => ([.Started], 1)
  | some .Completed => ([.Started], 1)

/-- Spec-side definition (§4.1 transition table, the two `Stop` columns):
the kinds of the events the command should append. -/
def specStopTable (reset : Bool) : Option SessionEventKind → List SessionEventKind
  | some .Started => [if reset then .Aborted else .Paused]
  | some .Resumed => [if reset then .Aborted else .Paused]
  | some .Paused => if reset then [.Aborted] else []
  | _ => []

/-- `Start()` produced exactly the §4.1 table cell: the appended event
kinds, the number of created sessions, resumption targets the session of
the latest (paused) event, and a created session owns the appended
`Started` event. -/
def StartObeysTable (args : StartCommandArgs) (now : Int) (s : Store) : Prop :=
  (runStart args now s).session_events.map SessionEvent.kind
      = (specStartTable (latestKind s)).1 ++ s.session_events.map SessionEvent.kind
  ∧ (runStart args now s).sessions.length
      = (specStartTable (latestKind s)).2 + s.sessions.length
  ∧ (latestKind s = some .Paused →
      ((runStart args now s).session_events.head?).map SessionEvent.session_id
        = (listSessionEventsFirst s).map SessionEvent.session_id)
  ∧ ((specStartTable (latestKind s)).2 = 1 →
      ((runStart args now s).session_events.head?).map SessionEvent.session_id
        = ((runStart args now s).sessions.head?).map Session.id)

/-- `Stop(reset)` produced exactly the §4.1 table cell: the appended event
kinds, and no session is ever created. -/
def StopObeysTable (reset : Bool) (now : Int) (s : Store) : Prop :=
  (runStop reset now s).session_events.map SessionEvent.kind
      = specStopTable reset (latestKind s) ++ s.session_events.map SessionEvent.kind
  ∧ (runStop reset now s).sessions = s.sessions

/-- The event kinds the replay loop treats as opening a running segment
(the `matches!` test of cmd.rs line 277). -/
def isOpenKind : SessionEventKind → Bool
  | .Started | .Resumed => true
  | _ => false

/-- Spec-side definition (§4.2), total on every chronological event list:
the elapsed time is the sum, over each maximal opener-to-closing-event
pair, of the difference of their timestamps, plus `now` minus the last
opener's timestamp when no closing event follows it. The first argument is
the pending opener's timestamp: a later opener overwrites it (so the pair
uses the maximal opener), the first closer after it contributes
`closer - opener`, a closer with no pending opener contributes nothing,
and a pending opener at the end contributes `now - opener`. -/
def specSegments (now : Int) : Option Int → List SessionEvent → Int
  | none, [] => 0
  | some t, [] => now - t
  | none, e :: es =>
    if isOpenKind e.kind then specSegments now (some e.created_at) es
    else specSegments now none es
  | some t, e :: es =>
    if isOpenKind e.kind then specSegments now (some e.created_at) es
    else (e.created_at - t) + specSegments now none es

/-- The §3 data-model invariants of a store, stated on the newest-first
event lists: every event's session identifier is below the counter and
references a stored session, a session's chronologically first event is
`Started`, only a session's most recent event may be terminal, and a
session whose most recent event is non-terminal owns the globally most
recent event (hence at most one session is live). -/
structure Inv (s : Store) : Prop where
  ids_lt : ∀ e ∈ s.session_events, e.session_id < s.next_id
  sess_lt : ∀ sess ∈ s.sessions, sess.id < s.next_id
  wf : eventsHaveSessions s = true
  first_started : ∀ sid e, (sessionEvs s sid).getLast? = some e →
    e.kind = SessionEventKind.Started
  no_follow_terminal : ∀ sid e, e ∈ (sessionEvs s sid).drop 1 →
    isTerminal e.kind = false
  live_is_head : ∀ sid e, (sessionEvs s sid).head? = some e →
    isTerminal e.kind = false → s.session_events.head? = some e

/-- The identifier/time ordering facts of a store at a time bound `t`:
identifiers are below the counter, timestamps are at most `t`, and both
record sets are strictly identifier-descending and timestamp-descending
(newest first). -/
structure StoreOrd (s : Store) (t : Int) : Prop where
  ev_bound : ∀ e ∈ s.session_events, e.id < s.next_id ∧ e.created_at ≤ t
  sess_bound : ∀ sess ∈ s.sessions, sess.id < s.next_id ∧ sess.created_at ≤ t
  sess_id_desc : List.Pairwise (fun a b => b.id < a.id) s.sessions
  ev_id_desc : List.Pairwise (fun a b => b.id < a.id) s.session_events
  sess_time_desc : List.Pairwise (fun a b => b.created_at ≤ a.created_at) s.sessions
  ev_time_desc : List.Pairwise (fun a b => b.created_at ≤ a.created_at) s.session_events

theorem head?_some_eq {α : Type} {l : List α} {a : α} (h : l.head? = some a) :
    ∃ t, l = a :: t := by
  cases l with
  | nil => simp at h
  | cons b t =>
    refine ⟨t, ?_⟩
    simp_all

theorem getLast?_cons_of_ne_nil {α : Type} (a : α) {l : List α} (h : l ≠ []) :
    (a :: l).getLast? = l.getLast? := by
  cases l with
  | nil => exact absurd rfl h
  | cons b t => simp [List.getLast?_cons_cons]

theorem getSessionById_of_mem (s : Store) (ev : SessionEvent)
    (hwf : eventsHaveSessions s = true) (hmem : ev ∈ s.session_events) :
    ∃ sess, getSessionById s ev.session_id = some sess
      ∧ sess.id = ev.session_id := by
  have hany := List.all_eq_true.mp hwf ev hmem
  have hsome : (s.sessions.find? (fun sess => sess.id == ev.session_id)).isSome := by
    rw [List.find?_isSome]
    simpa [List.any_eq_true] using hany
  obtain ⟨sess, hfind⟩ := Option.isSome_iff_exists.mp hsome
  refine ⟨sess, hfind, ?_⟩
  simpa using List.find?_some hfind

theorem sessionEvs_head_sid (s : Store) (sid : Nat) (e : SessionEvent)
    (h : (sessionEvs s sid).head? = some e) : e.session_id = sid := by
  have hm : e ∈ sessionEvs s sid := by
    obtain ⟨t, ht⟩ := head?_some_eq h
    simp [ht]
  have := (List.mem_filter.mp hm).2
  simpa using this

theorem statusStep_of_none (s : Store) (now : Int)
    (hsess : listSessionsFirst s = none) :
    statusStep now s = (s, SessionStatus.default) := by
  simp [statusStep, execStatus, hsess]

theorem statusStep_of_some (s : Store) (sess : Session) (now : Int)
    (hsess : listSessionsFirst s = some sess) :
    statusStep now s =
      if derivedState s sess = SessionState.Running
          ∧ derivedRemaining s sess now = 0 then
        ((s.insertSessionEvent .Completed sess.id now).1,
          ⟨sess.kind.toString, SessionState.Completed, sess.planned_duration,
            derivedElapsed s sess now, derivedRemaining s sess now⟩)
      else
        (s, ⟨sess.kind.toString, derivedState s sess, sess.planned_duration,
          derivedElapsed s sess now, derivedRemaining s sess now⟩) := by
  by_cases hc : derivedState s sess = SessionState.Running
      ∧ derivedRemaining s sess now = 0
  · simp [statusStep, execStatus, hsess, hc, SessionState.fromKind]
  · simp [statusStep, execStatus, hsess, hc]

/-- C6: when the store contains no session at all, the status operation
returns exactly the fixed empty result (kind `"none"`, state none, all
durations zero) and appends no event (the store is unchanged). -/
theorem status_empty_store (s : Store) (now : Int) (h : s.sessions = []) :
    statusStep now s = (s, SessionStatus.default)
    ∧ SessionStatus.default = ⟨"none", SessionState.None, 0, 0, 0⟩ := by
  refine ⟨?_, rfl⟩
  exact statusStep_of_none s now (by simp [listSessionsFirst, h])

theorem status_empty_store_witness :
    statusStep 7 emptyStore = (emptyStore, SessionStatus.default) :=
  (status_empty_store emptyStore 7 rfl).1

/-- C10: when the most recent session exists but has zero recorded events,
status returns the session's actual kind string and planned seconds, state
none, elapsed 0 and remaining equal to planned, appends no event, and the
result is not the fixed empty result (its kind string is never "none"). -/
theorem status_session_no_events (s : Store) (sess : Session) (now : Int)
    (hsess : listSessionsFirst s = some sess)
    (hevs : listSessionEventsWithSessionId s sess.id = [])
    (hplanned : 0 ≤ sess.planned_duration) :
    statusStep now s
      = (s, ⟨sess.kind.toString, SessionState.None, sess.planned_duration, 0,
          sess.planned_duration⟩)
    ∧ sess.kind.toString ≠ "none" := by
  have hstate : derivedState s sess = SessionState.None := by
    simp [derivedState, hevs]
  have helapsed : derivedElapsed s sess now = 0 := by
    simp [derivedElapsed, hevs, replayElapsed, replayLoopAcc]
  have hrem : derivedRemaining s sess now = sess.planned_duration := by
    rw [derivedRemaining, helapsed, sub_zero]
    exact max_eq_left hplanned
  constructor
  · rw [statusStep_of_some s sess now hsess, if_neg (by simp [hstate])]
    rw [hstate, helapsed, hrem]
  · cases sess.kind <;> simp [SessionKind.toString]

theorem status_session_no_events_witness :
    statusStep 3 (⟨[⟨0, .Break, 300, 0⟩], [], 1⟩ : Store)
      = (⟨[⟨0, .Break, 300, 0⟩], [], 1⟩,
          ⟨"break", SessionState.None, 300, 0, 300⟩)
    ∧ SessionKind.toString .Break ≠ "none" :=
  status_session_no_events ⟨[⟨0, .Break, 300, 0⟩], [], 1⟩ ⟨0, .Break, 300, 0⟩ 3
    rfl rfl (by decide)

/-- C5: for every session and evaluation time, the status result has
`elapsed_secs` equal to the replayed elapsed time clamped to be
non-negative, `remaining_secs = max(planned_secs - elapsed_secs, 0)`, and
both clamped fields are never negative. -/
theorem status_clamped_arithmetic (s : Store) (sess : Session) (now : Int)
    (hsess : listSessionsFirst s = some sess) :
    (statusStep now s).2.planned_secs = sess.planned_duration
    ∧ (statusStep now s).2.elapsed_secs
        = max (replayElapsed (listSessionEventsWithSessionId s sess.id).reverse now) 0
    ∧ 0 ≤ (statusStep now s).2.elapsed_secs
    ∧ (statusStep now s).2.remaining_secs
        = max (sess.planned_duration - (statusStep now s).2.elapsed_secs) 0
    ∧ 0 ≤ (statusStep now s).2.remaining_secs := by
  rw [statusStep_of_some s sess now hsess]
  split_ifs with hc <;>
    simp [derivedElapsed, derivedRemaining, le_max_right]

theorem status_clamped_arithmetic_witness :
    (statusStep 0 (⟨[⟨0, .Focus, 1500, 10⟩], [⟨1, .Started, 0, 10⟩], 2⟩ : Store)).2.elapsed_secs = 0
    ∧ 0 ≤ (statusStep 0 (⟨[⟨0, .Focus, 1500, 10⟩], [⟨1, .Started, 0, 10⟩], 2⟩ : Store)).2.remaining_secs := by
  have h := status_clamped_arithmetic ⟨[⟨0, .Focus, 1500, 10⟩], [⟨1, .Started, 0, 10⟩], 2⟩
    ⟨0, .Focus, 1500, 10⟩ 0 rfl
  exact ⟨h.2.1.trans (by decide), h.2.2.2.2⟩

/-- C3: status appends a `Completed` event exactly when the derived state
is running and the remaining time is zero; when it does, exactly that event
is prepended, the returned status reports state `Completed`, and a second
status invocation appends nothing further (the store is unchanged). -/
theorem status_autocompletes_once (s : Store) (sess : Session)
    (now now2 : Int) (hsess : listSessionsFirst s = some sess) :
    ((statusStep now s).1 ≠ s ↔
      (derivedState s sess = SessionState.Running
        ∧ derivedRemaining s sess now = 0))
    ∧ (derivedState s sess = SessionState.Running
        ∧ derivedRemaining s sess now = 0 →
        (statusStep now s).1.session_events
            = ⟨s.next_id, SessionEventKind.Completed, sess.id, now⟩
                :: s.session_events
        ∧ (statusStep now s).2.state = SessionState.Completed
        ∧ (statusStep now2 (statusStep now s).1).1 = (statusStep now s).1) := by
  have hstep := statusStep_of_some s sess now hsess
  by_cases hc : derivedState s sess = SessionState.Running
      ∧ derivedRemaining s sess now = 0
  · rw [if_pos hc] at hstep
    have hne : (statusStep now s).1 ≠ s := by
      rw [hstep]
      intro he
      have := congrArg (fun st => st.session_events.length) he
      simp [Store.insertSessionEvent] at this
    refine ⟨⟨fun _ => hc, fun _ => hne⟩, fun _ => ⟨?_, ?_, ?_⟩⟩
    · rw [hstep]
      rfl
    · rw [hstep]
    · rw [hstep]
      have hsess1 : listSessionsFirst
          (Store.insertSessionEvent s .Completed sess.id now).1 = some sess := hsess
      have hds : derivedState
          (Store.insertSessionEvent s .Completed sess.id now).1 sess
            = SessionState.Completed := by
        simp [derivedState, listSessionEventsWithSessionId,
          Store.insertSessionEvent, SessionState.fromKind]
      rw [statusStep_of_some _ sess now2 hsess1, if_neg (by simp [hds])]
  · rw [if_neg hc] at hstep
    refine ⟨⟨fun hne => ?_, fun h => absurd h hc⟩, fun h => absurd h hc⟩
    rw [hstep] at hne
    exact absurd rfl hne

theorem status_autocompletes_once_witness :
    (derivedState (⟨[⟨0, .Focus, 0, 0⟩], [⟨1, .Started, 0, 0⟩], 2⟩ : Store)
        ⟨0, .Focus, 0, 0⟩ = SessionState.Running
      ∧ derivedRemaining (⟨[⟨0, .Focus, 0, 0⟩], [⟨1, .Started, 0, 0⟩], 2⟩ : Store)
          ⟨0, .Focus, 0, 0⟩ 0 = 0)
    ∧ (statusStep 0 (⟨[⟨0, .Focus, 0, 0⟩], [⟨1, .Started, 0, 0⟩], 2⟩ : Store)).1.session_events
        = ⟨2, SessionEventKind.Completed, 0, 0⟩ :: [⟨1, .Started, 0, 0⟩]
    ∧ (statusStep 1 (statusStep 0 (⟨[⟨0, .Focus, 0, 0⟩], [⟨1, .Started, 0, 0⟩], 2⟩ : Store)).1).1
        = (statusStep 0 (⟨[⟨0, .Focus, 0, 0⟩], [⟨1, .Started, 0, 0⟩], 2⟩ : Store)).1 := by
  have h := status_autocompletes_once
    ⟨[⟨0, .Focus, 0, 0⟩], [⟨1, .Started, 0, 0⟩], 2⟩ ⟨0, .Focus, 0, 0⟩ 0 1 rfl
  exact ⟨by decide, (h.2 (by decide)).1, (h.2 (by decide)).2.2⟩

theorem replayLoopAcc_specSegments (events : List SessionEvent)
    (now : Int) :
    ∀ (st : Option Int) (acc : Int),
      ((replayLoopAcc st acc events).1
        + match (replayLoopAcc st acc events).2 with
          | some u => now - u
          | none => 0)
        = acc + specSegments now st events := by
  induction events with
  | nil =>
    intro st acc
    cases st <;> simp [replayLoopAcc, specSegments]
  | cons e es ih =>
    intro st acc
    cases hk : e.kind <;> cases st <;>
      simp [replayLoopAcc, specSegments, isOpenKind, hk, ih] <;> ring

theorem replayElapsed_eq_loop (events : List SessionEvent) (now : Int) :
    replayElapsed events now
      = (replayLoopAcc none 0 events).1
        + match (replayLoopAcc none 0 events).2 with
          | some t => now - t
          | none => 0 := by
  simp only [replayElapsed]
  cases hp : (replayLoopAcc none 0 events).2 <;> simp [hp]

/-- C2: for every chronologically ordered event list of one session, the
replay computation equals the spec-side segment sum `specSegments`: over
each maximal opener-to-closing-event pair the difference of their
timestamps, plus `now` minus the last opener's timestamp when no closing
event follows it; and the claim's concrete instance `Started@t0,
Paused@t0+5s, Resumed@t0+10s` evaluated at `now = t0+15s` computes exactly
10 seconds. -/
theorem replay_sums_maximal_segments (events : List SessionEvent)
    (now t0 : Int) (i1 i2 i3 sid : Nat) :
    replayElapsed events now = specSegments now none events
    ∧ replayElapsed [⟨i1, .Started, sid, t0⟩, ⟨i2, .Paused, sid, t0 + 5⟩,
        ⟨i3, .Resumed, sid, t0 + 10⟩] (t0 + 15) = 10 := by
  constructor
  · have h := replayLoopAcc_specSegments events now none 0
    rw [zero_add] at h
    exact (replayElapsed_eq_loop events now).trans h
  · simp [replayElapsed, replayLoopAcc, isOpenKind]

theorem replay_sums_maximal_segments_witness :
    replayElapsed [⟨1, .Started, 0, 0⟩, ⟨2, .Paused, 0, 5⟩,
      ⟨3, .Resumed, 0, 10⟩] 15 = 10 := by
  have h := (replay_sums_maximal_segments [] 0 0 1 2 3 0).2
  simpa using h

/-- C7: commands execute atomically: whenever a command's execution inside
the transaction fails (for any injected storage-failure schedule, including
one where the session insert succeeds and the following event insert
fails), the transaction is not committed and the observable store equals
the store before the command. -/
theorem command_rolls_back_on_failure (s : Store) (fs : FailSpec)
    (args : StartCommandArgs) (reset : Bool) (now : Int) (e : CmdError) :
    (execStart fs args now s = .error e →
      commitOrRollback s (execStart fs args now s) = s)
    ∧ (execStop fs reset now s = .error e →
      commitOrRollback s (execStop fs reset now s) = s)
    ∧ ((execStatus fs now s).map Prod.fst = .error e →
      commitOrRollback s ((execStatus fs now s).map Prod.fst) = s) := by
  refine ⟨fun h => ?_, fun h => ?_, fun h => ?_⟩ <;> rw [h] <;> rfl

theorem command_rolls_back_on_failure_witness :
    execStart (fun k => k == 1) ⟨StartMode.Focus, none⟩ 0 emptyStore
      = .error (.storage 1)
    ∧ commitOrRollback emptyStore
        (execStart (fun k => k == 1) ⟨StartMode.Focus, none⟩ 0 emptyStore)
      = emptyStore :=
  ⟨rfl, (command_rolls_back_on_failure emptyStore (fun k => k == 1)
    ⟨StartMode.Focus, none⟩ false 0 (.storage 1)).1 rfl⟩

theorem sessionFromArgs_with_config (args : StartCommandArgs)
    (config : ProgramConfig) :
    sessionFromArgs (args.with_config config)
      = (args.mode.toKind,
        args.duration.getD (match args.mode with
          | .Focus => config.focus_duration
          | .Break => config.break_duration)) := by
  cases hd : args.duration <;> cases hm : args.mode <;>
    simp [StartCommandArgs.with_config, sessionFromArgs, hd, hm]

/-- C8: whenever `start` creates a new session, its kind is the command's
requested mode and its planned duration is the explicit duration argument
when given, else the config default for that mode; when configuration
loading fails (`loaded = none`, recovered and never fatal), the defaults
are the built-in 1500 s focus / 300 s break. -/
theorem start_new_session_kind_duration (loaded : Option ProgramConfig)
    (args : StartCommandArgs) (now : Int) (s : Store)
    (hterm : ∀ k, latestKind s = some k → isTerminal k = true) :
    (mainStart loaded args now s).sessions
      = ⟨s.next_id, args.mode.toKind,
          args.duration.getD (match args.mode with
            | .Focus => (loaded.getD ProgramConfig.default).focus_duration
            | .Break => (loaded.getD ProgramConfig.default).break_duration),
          now⟩ :: s.sessions
    ∧ (loaded = none →
        args.duration.getD (match args.mode with
            | .Focus => (loaded.getD ProgramConfig.default).focus_duration
            | .Break => (loaded.getD ProgramConfig.default).break_duration)
          = args.duration.getD (match args.mode with
            | .Focus => 1500
            | .Break => 300)) := by
  constructor
  · have hdur := sessionFromArgs_with_config args (loaded.getD ProgramConfig.default)
    cases hs : s.session_events with
    | nil =>
      simp [mainStart, runStart, execStart, commitOrRollback,
        listSessionEventsFirst, hs, hdur, Store.insertSession,
        Store.insertSessionEvent]
    | cons ev tl =>
      have hk := hterm ev.kind (by simp [latestKind, listSessionEventsFirst, hs])
      cases hkk : ev.kind <;> rw [hkk] at hk <;> simp [isTerminal] at hk <;>
        simp [mainStart, runStart, execStart, commitOrRollback,
          listSessionEventsFirst, hs, hkk, hdur, Store.insertSession,
          Store.insertSessionEvent]
  · intro h
    subst h
    cases hm : args.mode <;> cases hd : args.duration <;>
      simp [hd, hm, ProgramConfig.default]

theorem start_new_session_kind_duration_witness :
    (mainStart none ⟨StartMode.Break, none⟩ 5 emptyStore).sessions
      = [⟨0, SessionKind.Break, 300, 5⟩] := by
  have h := start_new_session_kind_duration none ⟨StartMode.Break, none⟩ 5
    emptyStore
    (by intro k hk; simp [latestKind, listSessionEventsFirst, emptyStore] at hk)
  exact h.1.trans (by decide)

/-- C1: for every latest-event input and every command variant, executing
the command appends exactly the events of the §4.1 transition table and
creates exactly the number of sessions it specifies; resuming targets the
session of the latest (paused) event, and a created session owns the
appended `Started` event. -/
theorem start_stop_transition_table (s : Store)
    (hwf : eventsHaveSessions s = true) (args : StartCommandArgs)
    (reset : Bool) (now : Int) :
    StartObeysTable args now s ∧ StopObeysTable reset now s := by
  cases hs : s.session_events with
  | nil =>
    cases reset <;>
      simp [StartObeysTable, StopObeysTable, runStart, runStop, execStart,
        execStop, commitOrRollback, listSessionEventsFirst, latestKind,
        specStartTable, specStopTable, hs, Store.insertSession,
        Store.insertSessionEvent, sessionFromArgs] <;> omega
  | cons ev tl =>
    have hmem : ev ∈ s.session_events := by
      rw [hs]
      exact List.mem_cons_self ev tl
    obtain ⟨sess, hfind, hsid⟩ := getSessionById_of_mem s ev hwf hmem
    cases hk : ev.kind <;> cases reset <;>
      simp [StartObeysTable, StopObeysTable, runStart, runStop, execStart,
        execStop, commitOrRollback, listSessionEventsFirst, latestKind,
        specStartTable, specStopTable, hs, hk, hfind, hsid,
        Store.insertSession, Store.insertSessionEvent, sessionFromArgs] <;> omega

theorem start_stop_transition_table_witness :
    eventsHaveSessions
        (⟨[⟨0, .Focus, 1500, 0⟩], [⟨2, .Paused, 0, 5⟩, ⟨1, .Started, 0, 0⟩], 3⟩
          : Store) = true
    ∧ StartObeysTable ⟨StartMode.Focus, none⟩ 9
        ⟨[⟨0, .Focus, 1500, 0⟩], [⟨2, .Paused, 0, 5⟩, ⟨1, .Started, 0, 0⟩], 3⟩
    ∧ StopObeysTable true 9
        ⟨[⟨0, .Focus, 1500, 0⟩], [⟨2, .Paused, 0, 5⟩, ⟨1, .Started, 0, 0⟩], 3⟩ :=
  ⟨by decide,
    (start_stop_transition_table _ (by decide) ⟨StartMode.Focus, none⟩ true 9).1,
    (start_stop_transition_table _ (by decide) ⟨StartMode.Focus, none⟩ true 9).2⟩

theorem inv_empty : Inv emptyStore := by
  constructor <;> simp [emptyStore, eventsHaveSessions, sessionEvs]

theorem inv_insert_live (s : Store) (h : Inv s) (hd : SessionEvent)
    (hhead : s.session_events.head? = some hd)
    (hterm : isTerminal hd.kind = false)
    (k : SessionEventKind) (now : Int) :
    Inv ⟨s.sessions, ⟨s.next_id, k, hd.session_id, now⟩ :: s.session_events,
      s.next_id + 1⟩ := by
  obtain ⟨ss, E, n⟩ := s
  obtain ⟨tl, hs⟩ := head?_some_eq hhead
  subst hs
  constructor
  case ids_lt =>
    intro e he
    have hdsid : hd.session_id < n :=
      h.ids_lt hd (List.mem_cons_self hd tl)
    rcases List.mem_cons.mp he with rfl | he
    · exact Nat.lt_succ_of_lt hdsid
    · have h2 : e.session_id < n := h.ids_lt e he
      show e.session_id < n + 1
      omega
  case sess_lt =>
    intro sess hse
    have h2 : sess.id < n := h.sess_lt sess hse
    show sess.id < n + 1
    omega
  case wf =>
    have hw := h.wf
    simp only [eventsHaveSessions, List.all_cons, Bool.and_eq_true] at hw ⊢
    exact ⟨hw.1, hw.1, hw.2⟩
  case first_started =>
    intro sid e hlast
    by_cases hsid : hd.session_id = sid
    · simp only [sessionEvs] at hlast
      rw [List.filter_cons_of_pos (by simp [hsid]),
        List.filter_cons_of_pos (by simp [hsid]),
        getLast?_cons_of_ne_nil _ (List.cons_ne_nil _ _)] at hlast
      apply h.first_started sid e
      simp only [sessionEvs]
      rw [List.filter_cons_of_pos (by simp [hsid])]
      exact hlast
    · simp only [sessionEvs] at hlast
      rw [List.filter_cons_of_neg (by simp [hsid])] at hlast
      apply h.first_started sid e
      simp only [sessionEvs]
      exact hlast
  case no_follow_terminal =>
    intro sid e he
    by_cases hsid : hd.session_id = sid
    · simp only [sessionEvs] at he
      rw [List.filter_cons_of_pos (by simp [hsid]),
        List.filter_cons_of_pos (by simp [hsid])] at he
      simp only [List.drop_succ_cons, List.drop_zero] at he
      rcases List.mem_cons.mp he with rfl | he
      · exact hterm
      · apply h.no_follow_terminal sid e
        simp only [sessionEvs]
        rw [List.filter_cons_of_pos (by simp [hsid])]
        simpa using he
    · simp only [sessionEvs] at he
      rw [List.filter_cons_of_neg (by simp [hsid])] at he
      apply h.no_follow_terminal sid e
      simp only [sessionEvs]
      exact he
  case live_is_head =>
    intro sid e hh ht
    by_cases hsid : hd.session_id = sid
    · simp only [sessionEvs] at hh
      rw [List.filter_cons_of_pos (by simp [hsid])] at hh
      simp only [List.head?_cons, Option.some.injEq] at hh
      subst hh
      rfl
    · simp only [sessionEvs] at hh
      rw [List.filter_cons_of_neg (by simp [hsid])] at hh
      have hh2 : (sessionEvs ⟨ss, hd :: tl, n⟩ sid).head? = some e := by
        simp only [sessionEvs]
        exact hh
      have hg : (⟨ss, hd :: tl, n⟩ : Store).session_events.head? = some e :=
        h.live_is_head sid e hh2 ht
      have hde : hd = e := by simpa using hg
      have hesid : e.session_id = sid :=
        sessionEvs_head_sid ⟨ss, hd :: tl, n⟩ sid e hh2
      rw [← hde] at hesid
      exact absurd hesid hsid

theorem inv_insert_new (s : Store) (h : Inv s)
    (hterm : ∀ hd, s.session_events.head? = some hd → isTerminal hd.kind = true)
    (kind : SessionKind) (planned now : Int) :
    Inv ⟨⟨s.next_id, kind, planned, now⟩ :: s.sessions,
      ⟨s.next_id + 1, SessionEventKind.Started, s.next_id, now⟩
        :: s.session_events,
      s.next_id + 2⟩ := by
  obtain ⟨ss, E, n⟩ := s
  have hfresh : E.filter (fun e => e.session_id == n) = [] := by
    rw [List.filter_eq_nil_iff]
    intro e he
    have h2 : e.session_id < n := h.ids_lt e he
    simp only [beq_iff_eq]
    omega
  constructor
  case ids_lt =>
    intro e he
    rcases List.mem_cons.mp he with rfl | he
    · show n < n + 2
      omega
    · have h2 : e.session_id < n := h.ids_lt e he
      show e.session_id < n + 2
      omega
  case sess_lt =>
    intro sess hse
    rcases List.mem_cons.mp hse with rfl | hse
    · show n < n + 2
      omega
    · have h2 : sess.id < n := h.sess_lt sess hse
      show sess.id < n + 2
      omega
  case wf =>
    simp only [eventsHaveSessions, List.all_cons, Bool.and_eq_true]
    constructor
    · simp
    · rw [List.all_eq_true]
      intro e he
      have hq : ss.any (fun sess => sess.id == e.session_id) = true :=
        List.all_eq_true.mp h.wf e he
      simp [List.any_cons, hq]
  case first_started =>
    intro sid e hlast
    by_cases hsid : n = sid
    · subst hsid
      simp only [sessionEvs] at hlast
      rw [List.filter_cons_of_pos (by simp), hfresh] at hlast
      simp only [List.getLast?_singleton, Option.some.injEq] at hlast
      subst hlast
      rfl
    · simp only [sessionEvs] at hlast
      rw [List.filter_cons_of_neg (by simpa using hsid)] at hlast
      apply h.first_started sid e
      simp only [sessionEvs]
      exact hlast
  case no_follow_terminal =>
    intro sid e he
    by_cases hsid : n = sid
    · subst hsid
      simp only [sessionEvs] at he
      rw [List.filter_cons_of_pos (by simp), hfresh] at he
      simp at he
    · simp only [sessionEvs] at he
      rw [List.filter_cons_of_neg (by simpa using hsid)] at he
      apply h.no_follow_terminal sid e
      simp only [sessionEvs]
      exact he
  case live_is_head =>
    intro sid e hh ht
    by_cases hsid : n = sid
    · subst hsid
      simp only [sessionEvs] at hh
      rw [List.filter_cons_of_pos (by simp), hfresh] at hh
      simp only [List.head?_cons, Option.some.injEq] at hh
      subst hh
      rfl
    · simp only [sessionEvs] at hh
      rw [List.filter_cons_of_neg (by simpa using hsid)] at hh
      have hh2 : (sessionEvs ⟨ss, E, n⟩ sid).head? = some e := by
        simp only [sessionEvs]
        exact hh
      have hg : (⟨ss, E, n⟩ : Store).session_events.head? = some e :=
        h.live_is_head sid e hh2 ht
      have hT : isTerminal e.kind = true := hterm e hg
      rw [ht] at hT
      cases hT

theorem runStart_creates (args : StartCommandArgs) (now : Int) (s : Store)
    (hterm : ∀ hd, s.session_events.head? = some hd →
      isTerminal hd.kind = true) :
    runStart args now s
      = ⟨⟨s.next_id, (sessionFromArgs args).1, (sessionFromArgs args).2, now⟩
            :: s.sessions,
          ⟨s.next_id + 1, SessionEventKind.Started, s.next_id, now⟩
            :: s.session_events,
          s.next_id + 2⟩ := by
  rcases hp : sessionFromArgs args with ⟨kind, planned⟩
  cases hs : s.session_events with
  | nil =>
    simp [runStart, execStart, commitOrRollback, listSessionEventsFirst, hs,
      hp, Store.insertSession, Store.insertSessionEvent]
  | cons ev tl =>
    have hT := hterm ev (by rw [hs]; rfl)
    cases hk : ev.kind <;> rw [hk] at hT <;> simp [isTerminal] at hT <;>
      simp [runStart, execStart, commitOrRollback, listSessionEventsFirst, hs,
        hk, hp, Store.insertSession, Store.insertSessionEvent]

theorem inv_applyCmd (s : Store) (h : Inv s) (c : Cmd) :
    Inv (applyCmd s c) := by
  cases c with
  | start args now =>
    show Inv (runStart args now s)
    cases hs : s.session_events with
    | nil =>
      rw [runStart_creates args now s (by intro hd hhd; rw [hs] at hhd; simp at hhd)]
      exact inv_insert_new s h (by intro hd hhd; rw [hs] at hhd; simp at hhd)
        _ _ now
    | cons ev tl =>
      have hhead : s.session_events.head? = some ev := by
        rw [hs]
        rfl
      cases hk : ev.kind with
      | Started =>
        have hrun : runStart args now s = s := by
          cases hg : getSessionById s ev.session_id <;>
            simp [runStart, execStart, commitOrRollback,
              listSessionEventsFirst, hs, hk, hg]
        rw [hrun]
        exact h
      | Resumed =>
        have hrun : runStart args now s = s := by
          cases hg : getSessionById s ev.session_id <;>
            simp [runStart, execStart, commitOrRollback,
              listSessionEventsFirst, hs, hk, hg]
        rw [hrun]
        exact h
      | Paused =>
        cases hg : getSessionById s ev.session_id with
        | none =>
          have hrun : runStart args now s = s := by
            simp [runStart, execStart, commitOrRollback,
              listSessionEventsFirst, hs, hk, hg]
          rw [hrun]
          exact h
        | some sess =>
          have hsid : sess.id = ev.session_id := by
            simpa using List.find?_some hg
          have hrun : runStart args now s
              = ⟨s.sessions,
                  ⟨s.next_id, SessionEventKind.Resumed, ev.session_id, now⟩
                    :: s.session_events, s.next_id + 1⟩ := by
            simp [runStart, execStart, commitOrRollback,
              listSessionEventsFirst, hs, hk, hg, hsid,
              Store.insertSessionEvent]
          rw [hrun]
          exact inv_insert_live s h ev hhead (by simp [hk, isTerminal]) _ now
      | Aborted =>
        rw [runStart_creates args now s
          (by intro hd hhd; rw [hhead] at hhd; cases hhd; simp [isTerminal, hk])]
        exact inv_insert_new s h
          (by intro hd hhd; rw [hhead] at hhd; cases hhd; simp [isTerminal, hk])
          _ _ now
      | Completed =>
        rw [runStart_creates args now s
          (by intro hd hhd; rw [hhead] at hhd; cases hhd; simp [isTerminal, hk])]
        exact inv_insert_new s h
          (by intro hd hhd; rw [hhead] at hhd; cases hhd; simp [isTerminal, hk])
          _ _ now
  | stop reset now =>
    show Inv (runStop reset now s)
    cases hs : s.session_events with
    | nil =>
      have hrun : runStop reset now s = s := by
        simp [runStop, execStop, commitOrRollback, listSessionEventsFirst, hs]
      rw [hrun]
      exact h
    | cons ev tl =>
      have hhead : s.session_events.head? = some ev := by
        rw [hs]
        rfl
      cases hk : ev.kind with
      | Started =>
        cases hg : getSessionById s ev.session_id with
        | none =>
          have hrun : runStop reset now s = s := by
            simp [runStop, execStop, commitOrRollback,
              listSessionEventsFirst, hs, hk, hg]
          rw [hrun]
          exact h
        | some sess =>
          have hsid : sess.id = ev.session_id := by
            simpa using List.find?_some hg
          cases reset with
          | true =>
            have hrun : runStop true now s
                = ⟨s.sessions,
                    ⟨s.next_id, SessionEventKind.Aborted, ev.session_id, now⟩
                      :: s.session_events, s.next_id + 1⟩ := by
              simp [runStop, execStop, commitOrRollback,
                listSessionEventsFirst, hs, hk, hg, hsid,
                Store.insertSessionEvent]
            rw [hrun]
            exact inv_insert_live s h ev hhead (by simp [hk, isTerminal]) _ now
          | false =>
            have hrun : runStop false now s
                = ⟨s.sessions,
                    ⟨s.next_id, SessionEventKind.Paused, ev.session_id, now⟩
                      :: s.session_events, s.next_id + 1⟩ := by
              simp [runStop, execStop, commitOrRollback,
                listSessionEventsFirst, hs, hk, hg, hsid,
                Store.insertSessionEvent]
            rw [hrun]
            exact inv_insert_live s h ev hhead (by simp [hk, isTerminal]) _ now
      | Resumed =>
        cases hg : getSessionById s ev.session_id with
        | none =>
          have hrun : runStop reset now s = s := by
            simp [runStop, execStop, commitOrRollback,
              listSessionEventsFirst, hs, hk, hg]
          rw [hrun]
          exact h
        | some sess =>
          have hsid : sess.id = ev.session_id := by
            simpa using List.find?_some hg
          cases reset with
          | true =>
            have hrun : runStop true now s
                = ⟨s.sessions,
                    ⟨s.next_id, SessionEventKind.Aborted, ev.session_id, now⟩
                      :: s.session_events, s.next_id + 1⟩ := by
              simp [runStop, execStop, commitOrRollback,
                listSessionEventsFirst, hs, hk, hg, hsid,
                Store.insertSessionEvent]
            rw [hrun]
            exact inv_insert_live s h ev hhead (by simp [hk, isTerminal]) _ now
          | false =>
            have hrun : runStop false now s
                = ⟨s.sessions,
                    ⟨s.next_id, SessionEventKind.Paused, ev.session_id, now⟩
                      :: s.session_events, s.next_id + 1⟩ := by
              simp [runStop, execStop, commitOrRollback,
                listSessionEventsFirst, hs, hk, hg, hsid,
                Store.insertSessionEvent]
            rw [hrun]
            exact inv_insert_live s h ev hhead (by simp [hk, isTerminal]) _ now
      | Paused =>
        cases hg : getSessionById s ev.session_id with
        | none =>
          have hrun : runStop reset now s = s := by
            cases reset <;>
              simp [runStop, execStop, commitOrRollback,
                listSessionEventsFirst, hs, hk, hg]
          rw [hrun]
          exact h
        | some sess =>
          have hsid : sess.id = ev.session_id := by
            simpa using List.find?_some hg
          cases reset with
          | true =>
            have hrun : runStop true now s
                = ⟨s.sessions,
                    ⟨s.next_id, SessionEventKind.Aborted, ev.session_id, now⟩
                      :: s.session_events, s.next_id + 1⟩ := by
              simp [runStop, execStop, commitOrRollback,
                listSessionEventsFirst, hs, hk, hg, hsid,
                Store.insertSessionEvent]
            rw [hrun]
            exact inv_insert_live s h ev hhead (by simp [hk, isTerminal]) _ now
          | false =>
            have hrun : runStop false now s = s := by
              simp [runStop, execStop, commitOrRollback,
                listSessionEventsFirst, hs, hk, hg]
            rw [hrun]
            exact h
      | Aborted =>
        have hrun : runStop reset now s = s := by
          cases hg : getSessionById s ev.session_id <;>
            simp [runStop, execStop, commitOrRollback,
              listSessionEventsFirst, hs, hk, hg]
        rw [hrun]
        exact h
      | Completed =>
        have hrun : runStop reset now s = s := by
          cases hg : getSessionById s ev.session_id <;>
            simp [runStop, execStop, commitOrRollback,
              listSessionEventsFirst, hs, hk, hg]
        rw [hrun]
        exact h
  | status now =>
    show Inv (runStatus now s)
    cases hss : s.sessions with
    | nil =>
      have hrun : runStatus now s = s := by
        rw [runStatus, statusStep_of_none s now (by simp [listSessionsFirst, hss])]
      rw [hrun]
      exact h
    | cons sess rest =>
      have hsess : listSessionsFirst s = some sess := by
        rw [listSessionsFirst, hss]
        rfl
      by_cases hc : derivedState s sess = SessionState.Running
          ∧ derivedRemaining s sess now = 0
      · cases hF : (listSessionEventsWithSessionId s sess.id).head? with
        | none =>
          rw [derivedState, hF] at hc
          simp at hc
        | some e =>
          have hF2 : (sessionEvs s sess.id).head? = some e := hF
          have hkE : SessionState.fromKind e.kind = SessionState.Running := by
            have := hc.1
            rw [derivedState, hF] at this
            exact this
          have hterm : isTerminal e.kind = false := by
            cases hke : e.kind <;> rw [hke] at hkE <;>
              simp [SessionState.fromKind] at hkE <;> simp [isTerminal]
          have hhead : s.session_events.head? = some e :=
            h.live_is_head sess.id e hF2 hterm
          have hesid : e.session_id = sess.id :=
            sessionEvs_head_sid s sess.id e hF2
          have hrun : runStatus now s
              = ⟨s.sessions,
                  ⟨s.next_id, SessionEventKind.Completed, e.session_id, now⟩
                    :: s.session_events, s.next_id + 1⟩ := by
            rw [runStatus, statusStep_of_some s sess now hsess, if_pos hc,
              hesid]
            rfl
          rw [hrun]
          exact inv_insert_live s h e hhead hterm _ now
      · have hrun : runStatus now s = s := by
          rw [runStatus, statusStep_of_some s sess now hsess, if_neg hc]
        rw [hrun]
        exact h

theorem inv_runCmds (cs : List Cmd) : Inv (runCmds cs) := by
  rw [runCmds]
  have haux : ∀ (l : List Cmd) (s : Store), Inv s → Inv (l.foldl applyCmd s) := by
    intro l
    induction l with
    | nil => intro s hsI; exact hsI
    | cons c l ih =>
      intro s hsI
      exact ih _ (inv_applyCmd s hsI c)
  exact haux cs emptyStore inv_empty

theorem applyCmd_shapes (s : Store) (c : Cmd) :
    applyCmd s c = s
    ∨ (∃ k sid, k ≠ SessionEventKind.Started
        ∧ applyCmd s c
          = ⟨s.sessions, ⟨s.next_id, k, sid, c.now⟩ :: s.session_events,
              s.next_id + 1⟩)
    ∨ ((∀ hd, s.session_events.head? = some hd → isTerminal hd.kind = true)
        ∧ ∃ kind planned,
          applyCmd s c
            = ⟨⟨s.next_id, kind, planned, c.now⟩ :: s.sessions,
                ⟨s.next_id + 1, SessionEventKind.Started, s.next_id, c.now⟩
                  :: s.session_events,
                s.next_id + 2⟩) := by
  obtain ⟨ss, E, n⟩ := s
  cases c with
  | start args now =>
    cases E with
    | nil =>
      have hterm : ∀ hd, (⟨ss, [], n⟩ : Store).session_events.head? = some hd →
          isTerminal hd.kind = true := by
        intro hd hhd
        simp at hhd
      exact Or.inr (Or.inr ⟨hterm, _, _,
        runStart_creates args now ⟨ss, [], n⟩ hterm⟩)
    | cons ev tl =>
      cases hk : ev.kind with
      | Started =>
        refine Or.inl ?_
        show runStart args now ⟨ss, ev :: tl, n⟩ = _
        cases hg : getSessionById ⟨ss, ev :: tl, n⟩ ev.session_id <;>
          simp [runStart, execStart, commitOrRollback, listSessionEventsFirst,
            hk, hg]
      | Resumed =>
        refine Or.inl ?_
        show runStart args now ⟨ss, ev :: tl, n⟩ = _
        cases hg : getSessionById ⟨ss, ev :: tl, n⟩ ev.session_id <;>
          simp [runStart, execStart, commitOrRollback, listSessionEventsFirst,
            hk, hg]
      | Paused =>
        cases hg : getSessionById ⟨ss, ev :: tl, n⟩ ev.session_id with
        | none =>
          refine Or.inl ?_
          show runStart args now ⟨ss, ev :: tl, n⟩ = _
          simp [runStart, execStart, commitOrRollback, listSessionEventsFirst,
            hk, hg]
        | some sess =>
          refine Or.inr (Or.inl ⟨SessionEventKind.Resumed, sess.id,
            by simp, ?_⟩)
          show runStart args now ⟨ss, ev :: tl, n⟩ = _
          simp [runStart, execStart, commitOrRollback, listSessionEventsFirst,
            hk, hg, Store.insertSessionEvent, Cmd.now]
      | Aborted =>
        have hterm : ∀ hd,
            (⟨ss, ev :: tl, n⟩ : Store).session_events.head? = some hd →
            isTerminal hd.kind = true := by
          intro hd hhd
          simp only [List.head?_cons, Option.some.injEq] at hhd
          rw [← hhd]
          simp [isTerminal, hk]
        exact Or.inr (Or.inr ⟨hterm, _, _,
          runStart_creates args now ⟨ss, ev :: tl, n⟩ hterm⟩)
      | Completed =>
        have hterm : ∀ hd,
            (⟨ss, ev :: tl, n⟩ : Store).session_events.head? = some hd →
            isTerminal hd.kind = true := by
          intro hd hhd
          simp only [List.head?_cons, Option.some.injEq] at hhd
          rw [← hhd]
          simp [isTerminal, hk]
        exact Or.inr (Or.inr ⟨hterm, _, _,
          runStart_creates args now ⟨ss, ev :: tl, n⟩ hterm⟩)
  | stop reset now =>
    cases E with
    | nil =>
      refine Or.inl ?_
      show runStop reset now ⟨ss, [], n⟩ = _
      simp [runStop, execStop, commitOrRollback, listSessionEventsFirst]
    | cons ev tl =>
      cases hk : ev.kind with
      | Started =>
        cases hg : getSessionById ⟨ss, ev :: tl, n⟩ ev.session_id with
        | none =>
          refine Or.inl ?_
          show runStop reset now ⟨ss, ev :: tl, n⟩ = _
          simp [runStop, execStop, commitOrRollback, listSessionEventsFirst,
            hk, hg]
        | some sess =>
          refine Or.inr (Or.inl ⟨if reset then SessionEventKind.Aborted
            else SessionEventKind.Paused, sess.id, by cases reset <;> simp, ?_⟩)
          show runStop reset now ⟨ss, ev :: tl, n⟩ = _
          cases reset <;>
            simp [runStop, execStop, commitOrRollback, listSessionEventsFirst,
              hk, hg, Store.insertSessionEvent, Cmd.now]
      | Resumed =>
        cases hg : getSessionById ⟨ss, ev :: tl, n⟩ ev.session_id with
        | none =>
          refine Or.inl ?_
          show runStop reset now ⟨ss, ev :: tl, n⟩ = _
          simp [runStop, execStop, commitOrRollback, listSessionEventsFirst,
            hk, hg]
        | some sess =>
          refine Or.inr (Or.inl ⟨if reset then SessionEventKind.Aborted
            else SessionEventKind.Paused, sess.id, by cases reset <;> simp, ?_⟩)
          show runStop reset now ⟨ss, ev :: tl, n⟩ = _
          cases reset <;>
            simp [runStop, execStop, commitOrRollback, listSessionEventsFirst,
              hk, hg, Store.insertSessionEvent, Cmd.now]
      | Paused =>
        cases hg : getSessionById ⟨ss, ev :: tl, n⟩ ev.session_id with
        | none =>
          refine Or.inl ?_
          show runStop reset now ⟨ss, ev :: tl, n⟩ = _
          cases reset <;>
            simp [runStop, execStop, commitOrRollback, listSessionEventsFirst,
              hk, hg]
        | some sess =>
          cases reset with
          | true =>
            refine Or.inr (Or.inl ⟨SessionEventKind.Aborted, sess.id,
              by simp, ?_⟩)
            show runStop true now ⟨ss, ev :: tl, n⟩ = _
            simp [runStop, execStop, commitOrRollback, listSessionEventsFirst,
              hk, hg, Store.insertSessionEvent, Cmd.now]
          | false =>
            refine Or.inl ?_
            show runStop false now ⟨ss, ev :: tl, n⟩ = _
            simp [runStop, execStop, commitOrRollback, listSessionEventsFirst,
              hk, hg]
      | Aborted =>
        refine Or.inl ?_
        show runStop reset now ⟨ss, ev :: tl, n⟩ = _
        cases hg : getSessionById ⟨ss, ev :: tl, n⟩ ev.session_id <;>
          simp [runStop, execStop, commitOrRollback, listSessionEventsFirst,
            hk, hg]
      | Completed =>
        refine Or.inl ?_
        show runStop reset now ⟨ss, ev :: tl, n⟩ = _
        cases hg : getSessionById ⟨ss, ev :: tl, n⟩ ev.session_id <;>
          simp [runStop, execStop, commitOrRollback, listSessionEventsFirst,
            hk, hg]
  | status now =>
    cases ss with
    | nil =>
      refine Or.inl ?_
      show runStatus now ⟨[], E, n⟩ = _
      rw [runStatus, statusStep_of_none ⟨[], E, n⟩ now rfl]
    | cons sess rest =>
      have hsess : listSessionsFirst ⟨sess :: rest, E, n⟩ = some sess := rfl
      by_cases hc : derivedState ⟨sess :: rest, E, n⟩ sess = SessionState.Running
          ∧ derivedRemaining ⟨sess :: rest, E, n⟩ sess now = 0
      · refine Or.inr (Or.inl ⟨SessionEventKind.Completed, sess.id,
          by simp, ?_⟩)
        show runStatus now ⟨sess :: rest, E, n⟩ = _
        rw [runStatus, statusStep_of_some _ sess now hsess, if_pos hc]
        rfl
      · refine Or.inl ?_
        show runStatus now ⟨sess :: rest, E, n⟩ = _
        rw [runStatus, statusStep_of_some _ sess now hsess, if_neg hc]

/-- C4: for every event log reachable by a finite command sequence from the
empty store: each session's chronologically first event (the last entry of
its newest-first list) is `Started`; no event of a session other than its
most recent one is terminal (so nothing follows `Aborted`/`Completed`); at
most one session is live; and a step appends a `Started` event only when no
event exists or the most recent event is terminal. -/
theorem event_log_invariants (cs : List Cmd) :
    (∀ sid e, (sessionEvs (runCmds cs) sid).getLast? = some e →
      e.kind = SessionEventKind.Started)
    ∧ (∀ sid e, e ∈ (sessionEvs (runCmds cs) sid).drop 1 →
      isTerminal e.kind = false)
    ∧ (∀ sid1 sid2 e1 e2,
        (sessionEvs (runCmds cs) sid1).head? = some e1 →
        isTerminal e1.kind = false →
        (sessionEvs (runCmds cs) sid2).head? = some e2 →
        isTerminal e2.kind = false → sid1 = sid2)
    ∧ (∀ c e, (applyCmd (runCmds cs) c).session_events
          = e :: (runCmds cs).session_events →
        e.kind = SessionEventKind.Started →
        ∀ k, latestKind (runCmds cs) = some k → isTerminal k = true) := by
  have h := inv_runCmds cs
  refine ⟨h.first_started, h.no_follow_terminal, ?_, ?_⟩
  · intro sid1 sid2 e1 e2 h1 t1 h2 t2
    have g1 := h.live_is_head sid1 e1 h1 t1
    have g2 := h.live_is_head sid2 e2 h2 t2
    rw [g1, Option.some.injEq] at g2
    rw [← sessionEvs_head_sid _ sid1 e1 h1, ← sessionEvs_head_sid _ sid2 e2 h2,
      g2]
  · intro c e hev hkind k hlk
    rcases applyCmd_shapes (runCmds cs) c with hsame | ⟨k2, sid, hk2, heq⟩
      | ⟨hterm, kind, planned, heq⟩
    · rw [hsame] at hev
      have := congrArg List.length hev
      simp at this
    · rw [heq] at hev
      have hev2 : (⟨(runCmds cs).next_id, k2, sid, c.now⟩ : SessionEvent)
          :: (runCmds cs).session_events
          = e :: (runCmds cs).session_events := hev
      have h1 : (⟨(runCmds cs).next_id, k2, sid, c.now⟩ : SessionEvent) = e := by
        injection hev2
      have hks : k2 = SessionEventKind.Started := by
        have := congrArg SessionEvent.kind h1
        simpa [hkind] using this
      exact absurd hks hk2
    · simp only [latestKind, listSessionEventsFirst] at hlk
      obtain ⟨hd, hhd, hkd⟩ := Option.map_eq_some'.mp hlk
      rw [← hkd]
      exact hterm hd hhd

theorem event_log_invariants_witness :
    (⟨1, SessionEventKind.Started, 0, 0⟩ : SessionEvent).kind
      = SessionEventKind.Started :=
  (event_log_invariants [Cmd.start ⟨StartMode.Focus, none⟩ 0]).1 0
    ⟨1, SessionEventKind.Started, 0, 0⟩ (by decide)

theorem storeOrd_mono (s : Store) (t t2 : Int) (h : StoreOrd s t)
    (ht : t ≤ t2) : StoreOrd s t2 := by
  constructor
  · exact fun e hm => ⟨(h.ev_bound e hm).1, le_trans (h.ev_bound e hm).2 ht⟩
  · exact fun x hm => ⟨(h.sess_bound x hm).1, le_trans (h.sess_bound x hm).2 ht⟩
  · exact h.sess_id_desc
  · exact h.ev_id_desc
  · exact h.sess_time_desc
  · exact h.ev_time_desc

theorem storeOrd_empty (t : Int) : StoreOrd emptyStore t := by
  constructor <;> simp [emptyStore]

theorem storeOrd_insertEvent (s : Store) (t now : Int) (h : StoreOrd s t)
    (ht : t ≤ now) (k : SessionEventKind) (sid : Nat) :
    StoreOrd ⟨s.sessions, ⟨s.next_id, k, sid, now⟩ :: s.session_events,
      s.next_id + 1⟩ now := by
  constructor
  case ev_bound =>
    intro e hm
    rcases List.mem_cons.mp hm with rfl | hm
    · constructor
      · show s.next_id < s.next_id + 1
        omega
      · exact le_refl now
    · constructor
      · have h2 : e.id < s.next_id := (h.ev_bound e hm).1
        show e.id < s.next_id + 1
        omega
      · exact le_trans (h.ev_bound e hm).2 ht
  case sess_bound =>
    intro sess hm
    constructor
    · have h2 : sess.id < s.next_id := (h.sess_bound sess hm).1
      show sess.id < s.next_id + 1
      omega
    · exact le_trans (h.sess_bound sess hm).2 ht
  case sess_id_desc => exact h.sess_id_desc
  case ev_id_desc =>
    refine List.Pairwise.cons ?_ h.ev_id_desc
    intro e hm
    exact (h.ev_bound e hm).1
  case sess_time_desc => exact h.sess_time_desc
  case ev_time_desc =>
    refine List.Pairwise.cons ?_ h.ev_time_desc
    intro e hm
    exact le_trans (h.ev_bound e hm).2 ht

theorem storeOrd_insertBoth (s : Store) (t now : Int) (h : StoreOrd s t)
    (ht : t ≤ now) (kind : SessionKind) (planned : Int) :
    StoreOrd ⟨⟨s.next_id, kind, planned, now⟩ :: s.sessions,
      ⟨s.next_id + 1, SessionEventKind.Started, s.next_id, now⟩
        :: s.session_events,
      s.next_id + 2⟩ now := by
  constructor
  case ev_bound =>
    intro e hm
    rcases List.mem_cons.mp hm with rfl | hm
    · constructor
      · show s.next_id + 1 < s.next_id + 2
        omega
      · exact le_refl now
    · constructor
      · have h2 : e.id < s.next_id := (h.ev_bound e hm).1
        show e.id < s.next_id + 2
        omega
      · exact le_trans (h.ev_bound e hm).2 ht
  case sess_bound =>
    intro sess hm
    rcases List.mem_cons.mp hm with rfl | hm
    · constructor
      · show s.next_id < s.next_id + 2
        omega
      · exact le_refl now
    · constructor
      · have h2 : sess.id < s.next_id := (h.sess_bound sess hm).1
        show sess.id < s.next_id + 2
        omega
      · exact le_trans (h.sess_bound sess hm).2 ht
  case sess_id_desc =>
    refine List.Pairwise.cons ?_ h.sess_id_desc
    intro sess hm
    exact (h.sess_bound sess hm).1
  case ev_id_desc =>
    refine List.Pairwise.cons ?_ h.ev_id_desc
    intro e hm
    have h2 : e.id < s.next_id := (h.ev_bound e hm).1
    show e.id < s.next_id + 1
    omega
  case sess_time_desc =>
    refine List.Pairwise.cons ?_ h.sess_time_desc
    intro sess hm
    exact le_trans (h.sess_bound sess hm).2 ht
  case ev_time_desc =>
    refine List.Pairwise.cons ?_ h.ev_time_desc
    intro e hm
    exact le_trans (h.ev_bound e hm).2 ht

theorem storeOrd_applyCmd (s : Store) (c : Cmd) (t : Int) (h : StoreOrd s t)
    (ht : t ≤ c.now) : StoreOrd (applyCmd s c) c.now := by
  rcases applyCmd_shapes s c with hsame | ⟨k, sid, _, heq⟩
    | ⟨_, kind, planned, heq⟩
  · rw [hsame]
    exact storeOrd_mono s t c.now h ht
  · rw [heq]
    exact storeOrd_insertEvent s t c.now h ht k sid
  · rw [heq]
    exact storeOrd_insertBoth s t c.now h ht kind planned

theorem storeOrd_foldl (cs : List Cmd) (s : Store) (t : Int)
    (h : StoreOrd s t) (hts : ∀ c ∈ cs, t ≤ c.now)
    (hmono : List.Pairwise (fun a b => Cmd.now a ≤ Cmd.now b) cs) :
    ∃ t2, StoreOrd (cs.foldl applyCmd s) t2 := by
  induction cs generalizing s t with
  | nil => exact ⟨t, h⟩
  | cons c cs2 ih =>
    have h1 : StoreOrd (applyCmd s c) c.now :=
      storeOrd_applyCmd s c t h (hts c (List.mem_cons_self c cs2))
    have hm2 := List.pairwise_cons.mp hmono
    exact ih (applyCmd s c) c.now h1 hm2.1 hm2.2

/-- C9: along any command sequence run at nondecreasing wall-clock times,
both stored record sets are strictly identifier-descending and
timestamp-descending (so a later-created record has the strictly greater
identifier and identifier order agrees with creation-time order), and
reversing a session's newest-first event list yields chronological
(identifier- and timestamp-ascending) order for replay. -/
theorem ids_time_ordered (cs : List Cmd)
    (hmono : List.Pairwise (fun a b => Cmd.now a ≤ Cmd.now b) cs) :
    List.Pairwise (fun a b => b.id < a.id) (runCmds cs).sessions
    ∧ List.Pairwise (fun a b => b.id < a.id) (runCmds cs).session_events
    ∧ List.Pairwise (fun a b => b.created_at ≤ a.created_at)
        (runCmds cs).sessions
    ∧ List.Pairwise (fun a b => b.created_at ≤ a.created_at)
        (runCmds cs).session_events
    ∧ ∀ sid, List.Pairwise
        (fun a b => a.id < b.id ∧ a.created_at ≤ b.created_at)
        ((sessionEvs (runCmds cs) sid).reverse) := by
  have hex : ∃ t2, StoreOrd (runCmds cs) t2 := by
    cases cs with
    | nil => exact ⟨0, storeOrd_empty 0⟩
    | cons c cs2 =>
      rw [runCmds]
      refine storeOrd_foldl (c :: cs2) emptyStore c.now (storeOrd_empty c.now)
        ?_ hmono
      intro c2 hc2
      rcases List.mem_cons.mp hc2 with rfl | hc2
      · exact le_refl c2.now
      · exact (List.pairwise_cons.mp hmono).1 c2 hc2
  obtain ⟨t2, hord⟩ := hex
  refine ⟨hord.sess_id_desc, hord.ev_id_desc, hord.sess_time_desc,
    hord.ev_time_desc, ?_⟩
  intro sid
  have hflt : List.Pairwise
      (fun a b => b.id < a.id ∧ b.created_at ≤ a.created_at)
      (sessionEvs (runCmds cs) sid) :=
    List.Pairwise.sublist (List.filter_sublist _)
      (List.Pairwise.and hord.ev_id_desc hord.ev_time_desc)
  exact List.pairwise_reverse.mpr hflt

theorem ids_time_ordered_witness :
    List.Pairwise (fun (a b : SessionEvent) => b.id < a.id)
      (runCmds [Cmd.start ⟨StartMode.Focus, none⟩ 0,
        Cmd.stop false 5]).session_events
    ∧ List.Pairwise
        (fun (a b : SessionEvent) => a.id < b.id ∧ a.created_at ≤ b.created_at)
        ((sessionEvs (runCmds [Cmd.start ⟨StartMode.Focus, none⟩ 0,
          Cmd.stop false 5]) 0).reverse) :=
  ⟨(ids_time_ordered [Cmd.start ⟨StartMode.Focus, none⟩ 0, Cmd.stop false 5]
      (by decide)).2.1,
    (ids_time_ordered [Cmd.start ⟨StartMode.Focus, none⟩ 0, Cmd.stop false 5]
      (by decide)).2.2.2.2 0⟩

end Pomodoro
